import Mathlib

/-!
Shallow embedding of `truststore.py` (version 0.1.0): certificate verification
against the OS trust store.

The macOS path (`_verify_peercerts_impl` under `platform.system() == "Darwin"`)
is modelled as a pure function of a `MacEnv` describing the behaviour of the
native Security/CoreFoundation calls.  Besides the Python-level result
(normal return or raised exception, as an `Except`), the model records the
sequence of native-handle lifetime events (Create-style acquisitions and
`CFRelease` calls) and other observable steps as a trace, so that the
reference-counting discipline of the source can be stated and checked.

The Linux/BSD path (`_configure_context`, `_verify_peercerts_impl` under the
`else` branch) is modelled as a pure function of filesystem predicates
(`os.path.isfile` / `os.path.isdir`) and of the success of
`ctx.load_verify_locations`.
-/

/-- A DER-encoded certificate, as the list of its bytes
(`cert.public_bytes(ENCODING_DER)` in the source). -/
abbrev Cert := List Nat

/-- Kinds of native handles acquired by the macOS implementation.  The policy
handle records the hostname the policy was created with
(`Security.SecPolicyCreateSSL(False, hostname)`). -/
inductive HKind where
  | cfString
  | policy (hostname : Option String)
  | cfData
  | cert
  | certArray
  | trust
  | cfError
  | errorDesc
  deriving DecidableEq

/-- Observable events of one run: native handle creations and releases
(identified by an allocation id), the call to
`Security.SecTrustEvaluateWithError`, the chain extraction in
`_verify_peercerts`, and the session-level steps of `wrap_socket` /
`wrap_bio`. -/
inductive Event where
  | create (k : HKind) (id : Nat)
  | release (id : Nat)
  | evalCall (chain : List Cert) (hostname : Option String)
  | extractChain
  | handshake (hostname : Option String)
  | sessionReturn
  | sessionTeardown
  deriving DecidableEq

/-- The Python exceptions the modelled code can raise.
`typeError` stands for the `TypeError` raised by `_verify_peercerts`
(source message: Must either pass a single socket.socket or two
ssl.MemoryBIO, quoting omitted); `memoryError` for
`MemoryError("Unable to allocate memory!")`; `sslError` for `ssl.SSLError`;
`certVerificationError` for `ssl.SSLCertVerificationError` with its
`verify_code` and `verify_message` attributes; `osError` for `OSError`. -/
inductive VerifyErr where
  | typeError
  | memoryError
  | sslError (msg : String)
  | certVerificationError (code : Int) (message : String)
  | osError (msg : String)
  deriving DecidableEq

/-- Behaviour of the native macOS calls during one evaluation:
whether `CFArrayCreateMutable` returns a non-null array, the value returned
by `SecTrustEvaluateWithError` for a given chain and policy hostname, the
`CFErrorGetCode` of the error object produced on an untrusted verdict, and
how the description string of that error converts to a Python string
(`descDirect` models a non-null `CFStringGetCStringPtr` result; otherwise
`CFStringGetCString` succeeds with `descBufVal` iff `descBufOk`). -/
structure MacEnv where
  arrayAllocOk : Bool
  evalResult : List Cert → Option String → Nat
  errorCode : Int
  descDirect : Option String
  descBufOk : Bool
  descBufVal : String

/-- Handle events of the per-certificate loop of `_verify_peercerts_impl`
(source lines 321-334): for each chain entry, `CFDataCreate` and
`SecCertificateCreateWithData` acquire two handles which the `finally`
releases immediately after `CFArrayAppendValue`.  Ids are allocated
sequentially from `n`; the second component is the next fresh id. -/
def loadCertEvents : Nat → List Cert → List Event × Nat
  | _n, [] => ([], _n)
  | n, _ :: rest =>
      let t := loadCertEvents (n + 2) rest
      (Event.create HKind.cfData n :: Event.create HKind.cert (n + 1) ::
         Event.release n :: Event.release (n + 1) :: t.1, t.2)

/-- The macOS `_verify_peercerts_impl` (source lines 291-394), with an
explicit fresh-id counter `n0` threaded through so that successive calls can
be modelled.  Returns the Python-level outcome, the event trace, and the
next fresh id.

Control flow mirrors the source: create the SSL policy (releasing the
hostname CFString at once), create the mutable array (raising `MemoryError`
on a null result), load each certificate, create the trust object, release
the array, call `SecTrustEvaluateWithError`, dispatch on its result
(`1` trusted, `0` untrusted, otherwise `ssl.SSLError`), and on an untrusted
verdict read the error code and description and raise
`ssl.SSLCertVerificationError`.  The outer `finally` releases the policy and
the trust object on every path.  The `CFError` filled in by
`SecTrustEvaluateWithError` is created on the untrusted path and is never
released by the source. -/
def _verify_peercerts_impl_from (env : MacEnv) (cert_chain : List Cert)
    (server_hostname : Option String) (n0 : Nat) :
    Except VerifyErr Unit × List Event × Nat :=
  let policyEvents : List Event :=
    match server_hostname with
    | some _ =>
        [Event.create HKind.cfString n0,
         Event.create (HKind.policy server_hostname) (n0 + 1),
         Event.release n0]
    | none => [Event.create (HKind.policy none) n0]
  let policyId : Nat := match server_hostname with | some _ => n0 + 1 | none => n0
  let n1 : Nat := match server_hostname with | some _ => n0 + 2 | none => n0 + 1
  if env.arrayAllocOk then
    let certsId := n1
    let certEvs := loadCertEvents (n1 + 1) cert_chain
    let trustId := certEvs.2
    let base : List Event :=
      policyEvents ++
        (Event.create HKind.certArray certsId :: certEvs.1) ++
        [Event.create HKind.trust trustId, Event.release certsId,
         Event.evalCall cert_chain server_hostname]
    let r := env.evalResult cert_chain server_hostname
    if r = 1 then
      (Except.ok (), base ++ [Event.release policyId, Event.release trustId], trustId + 1)
    else if r = 0 then
      let errId := trustId + 1
      let descId := trustId + 2
      let tail : List Event :=
        [Event.create HKind.cfError errId, Event.create HKind.errorDesc descId,
         Event.release descId, Event.release policyId, Event.release trustId]
      match env.descDirect with
      | some msg =>
          (Except.error (VerifyErr.certVerificationError env.errorCode msg),
           base ++ tail, trustId + 3)
      | none =>
          if env.descBufOk then
            (Except.error (VerifyErr.certVerificationError env.errorCode env.descBufVal),
             base ++ tail, trustId + 3)
          else
            (Except.error (VerifyErr.osError "Error copying C string from CFStringRef"),
             base ++ tail, trustId + 3)
    else
      (Except.error (VerifyErr.sslError
          ("Unknown result from Security.SecTrustEvaluateWithError: " ++ toString r)),
       base ++ [Event.release policyId, Event.release trustId], trustId + 1)
  else
    (Except.error VerifyErr.memoryError, policyEvents ++ [Event.release policyId], n1)

/-- The macOS `_verify_peercerts_impl` as callers see it (fresh ids from 0). -/
def _verify_peercerts_impl (env : MacEnv) (cert_chain : List Cert)
    (server_hostname : Option String := none) : Except VerifyErr Unit × List Event :=
  ((_verify_peercerts_impl_from env cert_chain server_hostname 0).1,
   (_verify_peercerts_impl_from env cert_chain server_hostname 0).2.1)

/-- The `ssl.SSLObject` the verification reads: its relevant observable state
is the peer chain returned by `sslobj.get_unverified_chain()`, already as
DER bytes. -/
structure SSLObjectModel where
  chain : List Cert
  deriving DecidableEq

/-- The possible shapes of the argument of `_verify_peercerts`
(source lines 476-483): an `ssl.SSLSocket` (whose `_sslobj` is read), an
`ssl.SSLObject`, or any other object. -/
inductive SockOrObj where
  | sslSocket (sslobj : SSLObjectModel)
  | sslObject (sslobj : SSLObjectModel)
  | other
  deriving DecidableEq

/-- `_verify_peercerts` (source lines 468-486), macOS build: dispatch on the
argument type, raising `TypeError` for anything that is neither an
`ssl.SSLSocket` nor an `ssl.SSLObject`; otherwise extract the DER chain and
call `_verify_peercerts_impl`.  `server_hostname` defaults to `None` exactly
as in the source signature. -/
def _verify_peercerts (env : MacEnv) (sock_or_sslobj : SockOrObj)
    (server_hostname : Option String := none) : Except VerifyErr Unit × List Event :=
  match sock_or_sslobj with
  | SockOrObj.sslSocket o =>
      let r := _verify_peercerts_impl env o.chain server_hostname
      (r.1, Event.extractChain :: r.2)
  | SockOrObj.sslObject o =>
      let r := _verify_peercerts_impl env o.chain server_hostname
      (r.1, Event.extractChain :: r.2)
  | SockOrObj.other => (Except.error VerifyErr.typeError, [])

/-- A raw `socket.socket` about to be wrapped; its relevant observable state
is the certificate chain the peer will present during the handshake. -/
structure SocketModel where
  peerChain : List Cert
  deriving DecidableEq

/-- An `ssl.MemoryBIO` pair is summarised by the peer chain that the
buffer-mediated handshake will yield. -/
structure MemoryBio where
  peerChain : List Cert
  deriving DecidableEq

/-- `Truststore.wrap_socket` (source lines 450-453):
`self._ctx.wrap_socket(sock, server_hostname=server_hostname)` performs the
handshake (the engine check is disabled by `_configure_context` on macOS),
then `_verify_peercerts(ssl_sock)` is called — note that the source does not
forward `server_hostname` here, so the default `None` is used — and on a
normal return the wrapped socket is returned to the caller.  No other
statement exists: in particular no teardown of `ssl_sock` or `sock` happens
when `_verify_peercerts` raises. -/
def Truststore.wrap_socket (env : MacEnv) (sock : SocketModel)
    (server_hostname : Option String) : Except VerifyErr SSLObjectModel × List Event :=
  let ssl_sock : SSLObjectModel := ⟨sock.peerChain⟩
  match _verify_peercerts env (SockOrObj.sslSocket ssl_sock) with
  | (Except.ok _, t) =>
      (Except.ok ssl_sock,
       Event.handshake server_hostname :: (t ++ [Event.sessionReturn]))
  | (Except.error e, t) =>
      (Except.error e, Event.handshake server_hostname :: t)

/-- `Truststore.wrap_bio` (source lines 455-465): same shape as
`wrap_socket`, over a pair of memory BIOs; again `_verify_peercerts(ssl_obj)`
is called without forwarding `server_hostname`, and no teardown happens on
failure. -/
def Truststore.wrap_bio (env : MacEnv) (incoming _outgoing : MemoryBio)
    (server_hostname : Option String) : Except VerifyErr SSLObjectModel × List Event :=
  let ssl_obj : SSLObjectModel := ⟨incoming.peerChain⟩
  match _verify_peercerts env (SockOrObj.sslObject ssl_obj) with
  | (Except.ok _, t) =>
      (Except.ok ssl_obj,
       Event.handshake server_hostname :: (t ++ [Event.sessionReturn]))
  | (Except.error e, t) =>
      (Except.error e, Event.handshake server_hostname :: t)

/-- `_CA_FILES` (source lines 404-418): the candidate CA bundle files tried
by the Linux/BSD `_configure_context`, in order. -/
def _CA_FILES : List String :=
  ["/etc/ssl/certs/ca-certificates.crt",
   "/etc/pki/tls/certs/ca-bundle.crt",
   "/etc/ssl/ca-bundle.pem",
   "/etc/pki/tls/cacert.pem",
   "/etc/pki/ca-trust/extracted/pem/tls-ca-bundle.pem",
   "/etc/ssl/cert.pem",
   "/usr/local/etc/ssl/cert.pem",
   "/etc/ssl/cert.pem",
   "/usr/local/share/certs/ca-root-nss.crt",
   "/etc/openssl/certs/ca-certificates.crt",
   "/etc/certs/ca-certificates.crt",
   "/etc/ssl/certs/ca-certificates.crt",
   "/etc/ssl/cacert.pem"]

/-- `_CA_DIRS` (source lines 420-427): the candidate CA directories. -/
def _CA_DIRS : List String :=
  ["/etc/ssl/certs",
   "/etc/pki/tls/certs",
   "/system/etc/security/cacerts",
   "/usr/local/share/certs",
   "/etc/openssl/certs",
   "/etc/certs/CA"]

/-- One `ctx.load_verify_locations(...)` call performed by the Linux
`_configure_context`: either with `cafile=` or with `capath=`. -/
inductive LoadAction where
  | cafile (path : String)
  | capath (path : String)
  deriving DecidableEq

/-- `ctx.load_verify_locations` as the environment sees it: succeeds or
raises depending on the action (e.g. an unreadable or malformed bundle). -/
def load_verify_locations (loadOk : LoadAction → Bool) (a : LoadAction) :
    Except VerifyErr Unit :=
  if loadOk a then Except.ok () else Except.error (VerifyErr.sslError "load_verify_locations failed")

/-- The directory loop of the Linux `_configure_context` (source lines
435-437): `for cadir in _CA_DIRS: if os.path.isdir(cadir):
ctx.load_verify_locations(capath=cadir)` — note the loop has no `break`, so
every existing directory is loaded.  Returns the actions performed. -/
def loadAllDirs (loadOk : LoadAction → Bool) (dirs : List String)
    (isDir : String → Bool) : Except VerifyErr (List LoadAction) :=
  match dirs with
  | [] => Except.ok []
  | d :: rest =>
      if isDir d then
        match load_verify_locations loadOk (LoadAction.capath d) with
        | Except.ok _ =>
            match loadAllDirs loadOk rest isDir with
            | Except.ok acts => Except.ok (LoadAction.capath d :: acts)
            | Except.error e => Except.error e
        | Except.error e => Except.error e
      else loadAllDirs loadOk rest isDir

/-- The Linux/BSD `_configure_context` (source lines 429-437): try
`_CA_FILES` in order and load the first existing file, breaking out of the
loop; only if none exists (`for`-`else`), run the directory loop.  Returns
the list of load actions performed. -/
def _configure_context (loadOk : LoadAction → Bool) (isFile isDir : String → Bool) :
    Except VerifyErr (List LoadAction) :=
  match _CA_FILES.find? isFile with
  | some cafile =>
      match load_verify_locations loadOk (LoadAction.cafile cafile) with
      | Except.ok _ => Except.ok [LoadAction.cafile cafile]
      | Except.error e => Except.error e
  | none => loadAllDirs loadOk _CA_DIRS isDir

/-- `Truststore.__init__` on Linux (source lines 446-448):
`ssl.create_default_context()` followed by `_configure_context(self._ctx)`;
context creation succeeds exactly when `_configure_context` does. -/
def Truststore.init_linux (loadOk : LoadAction → Bool) (isFile isDir : String → Bool) :
    Except VerifyErr (List LoadAction) :=
  _configure_context loadOk isFile isDir

/-- The Linux/BSD `_verify_peercerts_impl` (source lines 439-442): the body
is `pass` — it returns `None` for every chain and hostname. -/
def _verify_peercerts_impl_linux (cert_chain : List Cert)
    (server_hostname : Option String := none) : Except VerifyErr Unit :=
  Except.ok ()

/-- `_verify_peercerts` as it behaves in the Linux build, where
`_verify_peercerts_impl` is the no-op above; the type dispatch is the same
code as on macOS. -/
def _verify_peercerts_linux (sock_or_sslobj : SockOrObj)
    (server_hostname : Option String := none) : Except VerifyErr Unit :=
  match sock_or_sslobj with
  | SockOrObj.sslSocket o => _verify_peercerts_impl_linux o.chain server_hostname
  | SockOrObj.sslObject o => _verify_peercerts_impl_linux o.chain server_hostname
  | SockOrObj.other => Except.error VerifyErr.typeError

/-- Number of `create` events with allocation id `i` in a trace. -/
def createCount (t : List Event) (i : Nat) : Nat :=
  t.countP fun e => match e with
    | Event.create _ j => j == i
    | _ => false

/-- Number of `release` events (CFRelease calls) with id `i` in a trace. -/
def releaseCount (t : List Event) (i : Nat) : Nat :=
  t.countP fun e => match e with
    | Event.release j => j == i
    | _ => false

/-- Number of `SecTrustEvaluateWithError` calls in a trace. -/
def evalCallCount (t : List Event) : Nat :=
  t.countP fun e => match e with
    | Event.evalCall _ _ => true
    | _ => false

/-- A native environment in which every chain evaluates as trusted. -/
def envTrusted : MacEnv :=
  { arrayAllocOk := true, evalResult := fun _ _ => 1, errorCode := 0,
    descDirect := none, descBufOk := true, descBufVal := "" }

/-- A native environment in which every chain evaluates as untrusted, with a
directly readable error description. -/
def envUntrusted : MacEnv :=
  { arrayAllocOk := true, evalResult := fun _ _ => 0, errorCode := -26,
    descDirect := some "certificate is not trusted", descBufOk := true,
    descBufVal := "" }

/-- An untrusted environment whose error description cannot be converted:
`CFStringGetCStringPtr` returns null and `CFStringGetCString` fails. -/
def envNoDesc : MacEnv :=
  { arrayAllocOk := true, evalResult := fun _ _ => 0, errorCode := -26,
    descDirect := none, descBufOk := false, descBufVal := "" }

/-- An environment in which `SecTrustEvaluateWithError` returns the value 2,
outside its documented boolean domain. -/
def envWeird : MacEnv :=
  { arrayAllocOk := true, evalResult := fun _ _ => 2, errorCode := 0,
    descDirect := none, descBufOk := true, descBufVal := "" }

/-- Closed form of the Python-level outcome of the macOS
`_verify_peercerts_impl`, proved below to coincide with the result component
of `_verify_peercerts_impl_from` for every fresh-id counter. -/
def implVerdict (env : MacEnv) (cert_chain : List Cert)
    (server_hostname : Option String) : Except VerifyErr Unit :=
  if env.arrayAllocOk then
    let r := env.evalResult cert_chain server_hostname
    if r = 1 then Except.ok ()
    else if r = 0 then
      match env.descDirect with
      | some msg => Except.error (VerifyErr.certVerificationError env.errorCode msg)
      | none =>
          if env.descBufOk then
            Except.error (VerifyErr.certVerificationError env.errorCode env.descBufVal)
          else Except.error (VerifyErr.osError "Error copying C string from CFStringRef")
    else
      Except.error (VerifyErr.sslError
        ("Unknown result from Security.SecTrustEvaluateWithError: " ++ toString r))
  else Except.error VerifyErr.memoryError

theorem implFrom_result (env : MacEnv) (cert_chain : List Cert)
    (server_hostname : Option String) (n0 : Nat) :
    (_verify_peercerts_impl_from env cert_chain server_hostname n0).1 =
      implVerdict env cert_chain server_hostname := by
  unfold _verify_peercerts_impl_from implVerdict
  cases henv : env.arrayAllocOk
  · simp [henv]
  · simp only [henv, if_true]
    by_cases h1 : env.evalResult cert_chain server_hostname = 1
    · simp [h1]
    · by_cases h0 : env.evalResult cert_chain server_hostname = 0
      · simp only [h1, h0, if_true, if_false]
        cases env.descDirect <;> cases env.descBufOk <;> simp
      · simp [h1, h0]

theorem loadCertEvents_snd (chain : List Cert) :
    ∀ n, (loadCertEvents n chain).2 = n + 2 * chain.length := by
  induction chain with
  | nil => intro n; simp [loadCertEvents]
  | cons c rest ih =>
      intro n
      simp only [loadCertEvents, List.length_cons, ih (n + 2)]
      omega

theorem createCount_loadCertEvents (chain : List Cert) :
    ∀ n i, createCount (loadCertEvents n chain).1 i =
      (if n ≤ i ∧ i < n + 2 * chain.length then 1 else 0) := by
  induction chain with
  | nil =>
      intro n i
      simp [loadCertEvents, createCount]
      split_ifs <;> omega
  | cons c rest ih =>
      intro n i
      have h := ih (n + 2) i
      simp only [createCount] at h ⊢
      simp only [loadCertEvents, List.countP_cons, h, List.length_cons]
      by_cases hn : n = i <;> by_cases hn1 : n + 1 = i <;>
        simp [hn, hn1] <;> split_ifs <;> omega

theorem releaseCount_loadCertEvents (chain : List Cert) :
    ∀ n i, releaseCount (loadCertEvents n chain).1 i =
      (if n ≤ i ∧ i < n + 2 * chain.length then 1 else 0) := by
  induction chain with
  | nil =>
      intro n i
      simp [loadCertEvents, releaseCount]
      split_ifs <;> omega
  | cons c rest ih =>
      intro n i
      have h := ih (n + 2) i
      simp only [releaseCount] at h ⊢
      simp only [loadCertEvents, List.countP_cons, h, List.length_cons]
      by_cases hn : n = i <;> by_cases hn1 : n + 1 = i <;>
        simp [hn, hn1] <;> split_ifs <;> omega

theorem evalCallCount_loadCertEvents (chain : List Cert) :
    ∀ n, evalCallCount (loadCertEvents n chain).1 = 0 := by
  induction chain with
  | nil => intro n; simp [loadCertEvents, evalCallCount]
  | cons c rest ih =>
      intro n
      have h := ih (n + 2)
      simp only [evalCallCount] at h ⊢
      simp [loadCertEvents, List.countP_cons, h]

theorem mem_loadCertEvents (chain : List Cert) :
    ∀ n e, e ∈ (loadCertEvents n chain).1 →
      (∃ k i, e = Event.create k i ∧ (k = HKind.cfData ∨ k = HKind.cert) ∧
          n ≤ i ∧ i < n + 2 * chain.length) ∨
      (∃ i, e = Event.release i) := by
  induction chain with
  | nil => intro n e h; simp [loadCertEvents] at h
  | cons c rest ih =>
      intro n e h
      simp only [loadCertEvents, List.mem_cons] at h
      rcases h with h | h | h | h | h
      · exact Or.inl ⟨HKind.cfData, n, h, Or.inl rfl, Nat.le_refl n,
          by simp only [List.length_cons]; omega⟩
      · exact Or.inl ⟨HKind.cert, n + 1, h, Or.inr rfl, by omega,
          by simp only [List.length_cons]; omega⟩
      · exact Or.inr ⟨n, h⟩
      · exact Or.inr ⟨n + 1, h⟩
      · rcases ih (n + 2) e h with ⟨k, i, he, hk, hlo, hhi⟩ | hr
        · refine Or.inl ⟨k, i, he, hk, by omega, ?_⟩
          simp only [List.length_cons]
          omega
        · exact Or.inr hr

theorem sessionReturn_not_in_loadCertEvents (chain : List Cert) :
    ∀ n, Event.sessionReturn ∉ (loadCertEvents n chain).1 := by
  induction chain with
  | nil => intro n; simp [loadCertEvents]
  | cons c rest ih =>
      intro n
      simp only [loadCertEvents, List.mem_cons]
      intro h
      rcases h with h | h | h | h | h <;> first
        | exact Event.noConfusion h
        | exact ih (n + 2) h

theorem sessionTeardown_not_in_loadCertEvents (chain : List Cert) :
    ∀ n, Event.sessionTeardown ∉ (loadCertEvents n chain).1 := by
  induction chain with
  | nil => intro n; simp [loadCertEvents]
  | cons c rest ih =>
      intro n
      simp only [loadCertEvents, List.mem_cons]
      intro h
      rcases h with h | h | h | h | h <;> first
        | exact Event.noConfusion h
        | exact ih (n + 2) h

theorem policy_not_in_loadCertEvents (chain : List Cert) (hostname : Option String)
    (i : Nat) : ∀ n, Event.create (HKind.policy hostname) i ∉ (loadCertEvents n chain).1 := by
  intro n h
  rcases mem_loadCertEvents chain n _ h with ⟨k, j, he, hk, _, _⟩ | ⟨j, he⟩
  · rcases hk with hk | hk <;> { rw [hk] at he; injection he with h1 h2; exact HKind.noConfusion h1 }
  · exact Event.noConfusion he

theorem loadAllDirs_none (loadOk : LoadAction → Bool) (isDir : String → Bool) :
    ∀ dirs : List String, (∀ d ∈ dirs, isDir d = false) →
      loadAllDirs loadOk dirs isDir = Except.ok [] := by
  intro dirs
  induction dirs with
  | nil => intro _; rfl
  | cons d rest ih =>
      intro h
      unfold loadAllDirs
      rw [h d (List.mem_cons_self d rest)]
      simp only [Bool.false_eq_true, if_false]
      exact ih fun x hx => h x (List.mem_cons_of_mem d hx)

theorem loadAllDirs_all_ok (loadOk : LoadAction → Bool) (isDir : String → Bool)
    (hload : ∀ a, loadOk a = true) :
    ∀ dirs : List String,
      loadAllDirs loadOk dirs isDir =
        Except.ok ((dirs.filter isDir).map LoadAction.capath) := by
  intro dirs
  induction dirs with
  | nil => rfl
  | cons d rest ih =>
      unfold loadAllDirs
      by_cases hd : isDir d
      · rw [if_pos hd]
        unfold load_verify_locations
        rw [hload (LoadAction.capath d), if_pos rfl, ih]
        simp [List.filter_cons, hd]
      · rw [if_neg hd, ih]
        simp [List.filter_cons, hd]

theorem loadCertEvents_forall (chain : List Cert) (n : Nat) :
    ∀ e ∈ (loadCertEvents n chain).1,
      (∃ k i, e = Event.create k i) ∨ (∃ i, e = Event.release i) := by
  intro e he
  rcases mem_loadCertEvents chain n e he with ⟨k, i, hei, _, _, _⟩ | ⟨i, hei⟩
  · exact Or.inl ⟨k, i, hei⟩
  · exact Or.inr ⟨i, hei⟩

theorem implFrom_trace_forall (env : MacEnv) (chain : List Cert) (hn : Option String)
    (s : Nat) :
    ∀ e ∈ (_verify_peercerts_impl_from env chain hn s).2.1,
      (∃ k i, e = Event.create k i) ∨ (∃ i, e = Event.release i) ∨
        e = Event.evalCall chain hn := by
  unfold _verify_peercerts_impl_from
  rcases hn with _ | host <;> by_cases ha : env.arrayAllocOk <;>
    simp only [ha, if_true, Bool.false_eq_true, if_false] <;>
  · intro e he
    repeat' split at he
    all_goals
      try simp only [List.mem_append, List.mem_cons, List.not_mem_nil, or_false,
        List.mem_singleton] at he
    all_goals try casesm* _ ∨ _
    all_goals first
      | exact Or.inl ⟨_, _, by assumption⟩
      | exact Or.inr (Or.inl ⟨_, by assumption⟩)
      | exact Or.inr (Or.inr (by assumption))
      | (rcases loadCertEvents_forall _ _ _ (by assumption) with ⟨k, i, hei⟩ | ⟨i, hei⟩ <;>
          first
            | exact Or.inl ⟨k, i, hei⟩
            | exact Or.inr (Or.inl ⟨i, hei⟩))

theorem impl_trace_no_sessionReturn (env : MacEnv) (chain : List Cert)
    (hn : Option String) :
    Event.sessionReturn ∉ (_verify_peercerts_impl env chain hn).2 := by
  intro he
  rcases implFrom_trace_forall env chain hn 0 _ he with ⟨k, i, h⟩ | ⟨i, h⟩ | h <;>
    exact Event.noConfusion h

theorem impl_trace_no_sessionTeardown (env : MacEnv) (chain : List Cert)
    (hn : Option String) :
    Event.sessionTeardown ∉ (_verify_peercerts_impl env chain hn).2 := by
  intro he
  rcases implFrom_trace_forall env chain hn 0 _ he with ⟨k, i, h⟩ | ⟨i, h⟩ | h <;>
    exact Event.noConfusion h

theorem implFrom_no_policy_some (env : MacEnv) (chain : List Cert) (s : Nat)
    (h : String) (i : Nat) :
    Event.create (HKind.policy (some h)) i ∉
      (_verify_peercerts_impl_from env chain none s).2.1 := by
  intro he
  simp only [_verify_peercerts_impl_from] at he
  repeat' split at he
  all_goals simp at he
  all_goals exact policy_not_in_loadCertEvents chain (some h) i _ he

theorem evalCallCount_impl (env : MacEnv) (chain : List Cert) (hn : Option String)
    (halloc : env.arrayAllocOk = true) :
    evalCallCount (_verify_peercerts_impl env chain hn).2 = 1 := by
  have hl : ∀ n, (loadCertEvents n chain).1.countP (fun e => match e with
      | Event.evalCall _ _ => true | _ => false) = 0 := by
    intro n
    simpa [evalCallCount] using evalCallCount_loadCertEvents chain n
  unfold _verify_peercerts_impl _verify_peercerts_impl_from
  rcases hn with _ | host <;> simp only [halloc, if_true] <;>
  · repeat' split
    all_goals simp [evalCallCount, List.countP_append, List.countP_cons, hl]

/-- Claim C7: a `SecTrustEvaluateWithError` result that is neither the clean
trusted value 1 nor the clean untrusted value 0 makes `_verify_peercerts_impl`
raise `ssl.SSLError` (a hard failure distinct from an untrusted verdict):
it never returns normally and never raises the certificate-verification
error, so such a result is never coerced to trusted or untrusted. -/
theorem C7_unknown_result_hard_failure (env : MacEnv) (chain : List Cert)
    (hn : Option String) (halloc : env.arrayAllocOk = true)
    (h0 : env.evalResult chain hn ≠ 0) (h1 : env.evalResult chain hn ≠ 1) :
    (_verify_peercerts_impl env chain hn).1 =
      Except.error (VerifyErr.sslError
        ("Unknown result from Security.SecTrustEvaluateWithError: " ++
          toString (env.evalResult chain hn))) ∧
    (_verify_peercerts_impl env chain hn).1 ≠ Except.ok () ∧
    (∀ c m, (_verify_peercerts_impl env chain hn).1 ≠
      Except.error (VerifyErr.certVerificationError c m)) := by
  have h : (_verify_peercerts_impl env chain hn).1 = implVerdict env chain hn := by
    simp [_verify_peercerts_impl, implFrom_result]
  rw [h]
  unfold implVerdict
  simp [halloc, h0, h1]

/-- Witness for C7 at a concrete environment returning the value 2. -/
theorem C7_witness :
    envWeird.arrayAllocOk = true ∧
    envWeird.evalResult [[1]] none ≠ 0 ∧ envWeird.evalResult [[1]] none ≠ 1 ∧
    (_verify_peercerts_impl envWeird [[1]] none).1 =
      Except.error (VerifyErr.sslError
        ("Unknown result from Security.SecTrustEvaluateWithError: " ++
          toString (envWeird.evalResult [[1]] none))) :=
  ⟨rfl, by decide, by decide,
   (C7_unknown_result_hard_failure envWeird [[1]] none rfl (by decide) (by decide)).1⟩

/-- Claim C8: on the Linux/BSD platform, when no candidate CA bundle file and
no candidate CA directory exists, `Truststore.__init__` still succeeds: no
`load_verify_locations` call is made at all (so the context keeps the TLS
engine's compiled-in defaults) and no error is raised, whatever
`load_verify_locations` would have done. -/
theorem C8_no_bundle_ok (loadOk : LoadAction → Bool) (isFile isDir : String → Bool)
    (hf : ∀ f ∈ _CA_FILES, isFile f = false)
    (hd : ∀ d ∈ _CA_DIRS, isDir d = false) :
    Truststore.init_linux loadOk isFile isDir = Except.ok [] := by
  have hfind : _CA_FILES.find? isFile = none := by
    rw [List.find?_eq_none]
    intro x hx
    simp [hf x hx]
  unfold Truststore.init_linux _configure_context
  rw [hfind]
  exact loadAllDirs_none loadOk isDir _CA_DIRS hd

/-- Witness for C8 on a filesystem with no matching file or directory. -/
theorem C8_witness :
    Truststore.init_linux (fun _ => true) (fun _ => false) (fun _ => false) =
      Except.ok [] :=
  C8_no_bundle_ok (fun _ => true) (fun _ => false) (fun _ => false)
    (fun _ _ => rfl) (fun _ _ => rfl)

/-- Claim C9: the macOS evaluation is idempotent: its outcome is a function
of the chain, the hostname and the native environment only.  The model
threads a fresh-allocation counter (its only cross-call state) through
`_verify_peercerts_impl_from`; the outcome is independent of it, and in
particular a second invocation started where the first ended yields the same
outcome as the first. -/
theorem C9_idempotent (env : MacEnv) (chain : List Cert) (hn : Option String)
    (s₁ s₂ : Nat) :
    (_verify_peercerts_impl_from env chain hn s₁).1 =
      (_verify_peercerts_impl_from env chain hn s₂).1 ∧
    (_verify_peercerts_impl_from env chain hn
        ((_verify_peercerts_impl_from env chain hn 0).2.2)).1 =
      (_verify_peercerts_impl env chain hn).1 ∧
    _verify_peercerts_impl_linux chain hn = _verify_peercerts_impl_linux chain hn := by
  refine ⟨?_, ?_, rfl⟩
  · rw [implFrom_result, implFrom_result]
  · show _ = (_verify_peercerts_impl_from env chain hn 0).1
    rw [implFrom_result, implFrom_result]

/-- Claim C10: `_verify_peercerts` raises `TypeError` on any argument that
is neither an `ssl.SSLSocket` nor an `ssl.SSLObject`, with an empty trace —
no chain extraction and no trust evaluation happens; for the two accepted
shapes it extracts the chain and runs `_verify_peercerts_impl`.  The same
dispatch holds in the Linux build. -/
theorem C10_type_dispatch (env : MacEnv) (hn : Option String) (o : SSLObjectModel) :
    _verify_peercerts env SockOrObj.other hn = (Except.error VerifyErr.typeError, []) ∧
    _verify_peercerts env (SockOrObj.sslSocket o) hn =
      ((_verify_peercerts_impl env o.chain hn).1,
       Event.extractChain :: (_verify_peercerts_impl env o.chain hn).2) ∧
    _verify_peercerts env (SockOrObj.sslObject o) hn =
      ((_verify_peercerts_impl env o.chain hn).1,
       Event.extractChain :: (_verify_peercerts_impl env o.chain hn).2) ∧
    _verify_peercerts_linux SockOrObj.other hn = Except.error VerifyErr.typeError :=
  ⟨rfl, rfl, rfl, rfl⟩

/-- Counterexample to claim C3: on a filesystem where no candidate CA file
exists and every candidate directory exists, the Linux `_configure_context`
loads all six candidate directories (the directory loop has no `break`),
not only the first one as the claim states. -/
theorem C3_counterexample :
    _configure_context (fun _ => true) (fun _ => false) (fun _ => true) =
      Except.ok [LoadAction.capath "/etc/ssl/certs",
        LoadAction.capath "/etc/pki/tls/certs",
        LoadAction.capath "/system/etc/security/cacerts",
        LoadAction.capath "/usr/local/share/certs",
        LoadAction.capath "/etc/openssl/certs",
        LoadAction.capath "/etc/certs/CA"] ∧
    _configure_context (fun _ => true) (fun _ => false) (fun _ => true) ≠
      Except.ok [LoadAction.capath "/etc/ssl/certs"] :=
  ⟨rfl, fun h => absurd (Except.ok.inj h) (by decide)⟩

/-- Claim C3 as amended: the verifier is configured with the first existing
file from the fixed ordered 13-entry candidate file list; only if no
candidate file exists, it is configured with every existing directory from
the fixed ordered 6-entry candidate directory list, in list order (the
source's directory loop has no `break`, so it does not stop at the first
existing directory). -/
theorem C3_amended (loadOk : LoadAction → Bool) (isFile isDir : String → Bool)
    (hload : ∀ a, loadOk a = true) :
    _CA_FILES.length = 13 ∧ _CA_DIRS.length = 6 ∧
    (∀ f, _CA_FILES.find? isFile = some f →
      _configure_context loadOk isFile isDir = Except.ok [LoadAction.cafile f]) ∧
    (_CA_FILES.find? isFile = none →
      _configure_context loadOk isFile isDir =
        Except.ok ((_CA_DIRS.filter isDir).map LoadAction.capath)) := by
  refine ⟨rfl, rfl, ?_, ?_⟩
  · intro f hf
    unfold _configure_context
    rw [hf]
    simp [load_verify_locations, hload]
  · intro hnone
    unfold _configure_context
    rw [hnone]
    exact loadAllDirs_all_ok loadOk isDir hload _CA_DIRS

/-- Witness for C3 as amended: with only `/etc/ssl/ca-bundle.pem` existing,
exactly that file is loaded. -/
theorem C3_amended_witness :
    _configure_context (fun _ => true) (fun p => p == "/etc/ssl/ca-bundle.pem")
        (fun _ => false) =
      Except.ok [LoadAction.cafile "/etc/ssl/ca-bundle.pem"] :=
  (C3_amended (fun _ => true) (fun p => p == "/etc/ssl/ca-bundle.pem")
      (fun _ => false) (fun _ => rfl)).2.2.1 "/etc/ssl/ca-bundle.pem" (by decide)

/-- Counterexample to claim C4: on the Linux/BSD platform the post-handshake
verification step accepts an empty peer chain without any error — the
implementation body is `pass` — so an empty chain is silently trusted there,
and no `NoCertificateError` is raised. -/
theorem C4_counterexample :
    _verify_peercerts_linux (SockOrObj.sslSocket ⟨[]⟩) none = Except.ok () := rfl

/-- Claim C4 as amended: on the delegated (Linux/BSD) platform the
post-handshake verification step returns success even for an empty chain
(no `NoCertificateError` exists in the code); on the native-evaluator
platform the evaluator still runs exactly once on the empty chain (when the
array allocation succeeds) and the empty chain is accepted exactly when the
native evaluation returns the trusted value 1. -/
theorem C4_amended (env : MacEnv) (hn hn2 : Option String)
    (halloc : env.arrayAllocOk = true) :
    _verify_peercerts_linux (SockOrObj.sslSocket ⟨[]⟩) hn = Except.ok () ∧
    evalCallCount (_verify_peercerts_impl env [] hn2).2 = 1 ∧
    ((_verify_peercerts_impl env [] hn2).1 = Except.ok () ↔
      env.evalResult [] hn2 = 1) := by
  refine ⟨rfl, evalCallCount_impl env [] hn2 halloc, ?_⟩
  have h : (_verify_peercerts_impl env [] hn2).1 = implVerdict env [] hn2 := by
    simp [_verify_peercerts_impl, implFrom_result]
  rw [h]
  unfold implVerdict
  simp only [halloc, if_true]
  by_cases h1 : env.evalResult [] hn2 = 1
  · simp [h1]
  · by_cases h0 : env.evalResult [] hn2 = 0
    · simp only [h1, h0, if_true, if_false]
      cases env.descDirect <;> cases env.descBufOk <;> simp [h1, h0]
    · simp [h1, h0]

/-- Witness for C4 as amended, at a trusting native environment. -/
theorem C4_amended_witness :
    envTrusted.arrayAllocOk = true ∧
    evalCallCount (_verify_peercerts_impl envTrusted [] none).2 = 1 ∧
    ((_verify_peercerts_impl envTrusted [] none).1 = Except.ok () ↔
      envTrusted.evalResult [] none = 1) :=
  ⟨rfl, (C4_amended envTrusted none none rfl).2.1, (C4_amended envTrusted none none rfl).2.2⟩

/-- Counterexample to claim C5: in an environment whose native error
description cannot be converted to a string, an untrusted verdict makes the
code raise `OSError` from `_cf_string_ref_to_str` — not an
`ssl.SSLCertVerificationError`, and in particular not one carrying a generic
untrusted-by-system-trust-store message, which appears nowhere in the code. -/
theorem C5_counterexample :
    envNoDesc.evalResult [[1]] none = 0 ∧
    (_verify_peercerts_impl envNoDesc [[1]] none).1 =
      Except.error (VerifyErr.osError "Error copying C string from CFStringRef") :=
  ⟨rfl, rfl⟩

/-- Claim C5 as amended: on an untrusted verdict the code raises
`ssl.SSLCertVerificationError` carrying exactly the numeric code read via
`CFErrorGetCode` and the message read from the native error description —
there is no generic fallback message; if the description cannot be read at
all, an `OSError` propagates instead. -/
theorem C5_amended (env : MacEnv) (chain : List Cert) (hn : Option String)
    (halloc : env.arrayAllocOk = true)
    (huntrusted : env.evalResult chain hn = 0) :
    (∀ m, env.descDirect = some m →
      (_verify_peercerts_impl env chain hn).1 =
        Except.error (VerifyErr.certVerificationError env.errorCode m)) ∧
    (env.descDirect = none → env.descBufOk = true →
      (_verify_peercerts_impl env chain hn).1 =
        Except.error (VerifyErr.certVerificationError env.errorCode env.descBufVal)) ∧
    (env.descDirect = none → env.descBufOk = false →
      (_verify_peercerts_impl env chain hn).1 =
        Except.error (VerifyErr.osError "Error copying C string from CFStringRef")) := by
  have h : (_verify_peercerts_impl env chain hn).1 = implVerdict env chain hn := by
    simp [_verify_peercerts_impl, implFrom_result]
  rw [h]
  unfold implVerdict
  simp only [halloc, if_true, huntrusted]
  refine ⟨?_, ?_, ?_⟩
  · intro m hm; simp [hm]
  · intro hm hb; simp [hm, hb]
  · intro hm hb; simp [hm, hb]

/-- Witness for C5 as amended at a concrete untrusted environment. -/
theorem C5_amended_witness :
    envUntrusted.arrayAllocOk = true ∧
    envUntrusted.evalResult [[1]] none = 0 ∧
    (_verify_peercerts_impl envUntrusted [[1]] none).1 =
      Except.error (VerifyErr.certVerificationError envUntrusted.errorCode
        "certificate is not trusted") :=
  ⟨rfl, rfl,
   (C5_amended envUntrusted [[1]] none rfl rfl).1 "certificate is not trusted" rfl⟩

theorem wrap_socket_trace (env : MacEnv) (sock : SocketModel) (hn : Option String) :
    (Truststore.wrap_socket env sock hn).2 =
      Event.handshake hn :: Event.extractChain ::
        ((_verify_peercerts_impl env sock.peerChain none).2 ++
          (match (_verify_peercerts_impl env sock.peerChain none).1 with
            | Except.ok _ => [Event.sessionReturn]
            | Except.error _ => [])) := by
  unfold Truststore.wrap_socket _verify_peercerts
  cases hres : (_verify_peercerts_impl env sock.peerChain none).1 <;> simp [hres]

theorem wrap_bio_trace (env : MacEnv) (inc outg : MemoryBio) (hn : Option String) :
    (Truststore.wrap_bio env inc outg hn).2 =
      Event.handshake hn :: Event.extractChain ::
        ((_verify_peercerts_impl env inc.peerChain none).2 ++
          (match (_verify_peercerts_impl env inc.peerChain none).1 with
            | Except.ok _ => [Event.sessionReturn]
            | Except.error _ => [])) := by
  unfold Truststore.wrap_bio _verify_peercerts
  cases hres : (_verify_peercerts_impl env inc.peerChain none).1 <;> simp [hres]

theorem wrap_socket_result (env : MacEnv) (sock : SocketModel) (hn : Option String) :
    (Truststore.wrap_socket env sock hn).1 =
      (match (_verify_peercerts_impl env sock.peerChain none).1 with
        | Except.ok _ => Except.ok (⟨sock.peerChain⟩ : SSLObjectModel)
        | Except.error e => Except.error e) := by
  unfold Truststore.wrap_socket _verify_peercerts
  cases hres : (_verify_peercerts_impl env sock.peerChain none).1 <;> simp [hres]

theorem wrap_bio_result (env : MacEnv) (inc outg : MemoryBio) (hn : Option String) :
    (Truststore.wrap_bio env inc outg hn).1 =
      (match (_verify_peercerts_impl env inc.peerChain none).1 with
        | Except.ok _ => Except.ok (⟨inc.peerChain⟩ : SSLObjectModel)
        | Except.error e => Except.error e) := by
  unfold Truststore.wrap_bio _verify_peercerts
  cases hres : (_verify_peercerts_impl env inc.peerChain none).1 <;> simp [hres]

theorem implFrom_policy_none_mem (env : MacEnv) (chain : List Cert) (s : Nat) :
    Event.create (HKind.policy none) s ∈
      (_verify_peercerts_impl_from env chain none s).2.1 := by
  simp only [_verify_peercerts_impl_from]
  repeat' split
  all_goals simp

/-- Claim C1 (defect demonstration): the policy constructed by the
post-handshake verification reached through `wrap_socket` or `wrap_bio` is
never parameterized with any hostname — `_verify_peercerts(ssl_sock)` is
called without forwarding `server_hostname`, so `SecPolicyCreateSSL` always
receives a null hostname (the trace contains a policy creation with no
hostname, and none with any hostname), even when the caller passed one. -/
theorem C1_hostname_dropped (env : MacEnv) (sock : SocketModel)
    (inc outg : MemoryBio) (server_hostname : Option String) (h : String) (i : Nat) :
    Event.create (HKind.policy (some h)) i ∉
      (Truststore.wrap_socket env sock server_hostname).2 ∧
    Event.create (HKind.policy (some h)) i ∉
      (Truststore.wrap_bio env inc outg server_hostname).2 ∧
    Event.create (HKind.policy none) 0 ∈
      (Truststore.wrap_socket env sock server_hostname).2 ∧
    Event.create (HKind.policy none) 0 ∈
      (Truststore.wrap_bio env inc outg server_hostname).2 := by
  refine ⟨?_, ?_, ?_, ?_⟩
  · rw [wrap_socket_trace]
    intro hmem
    rcases List.mem_cons.mp hmem with h1 | hmem
    · exact Event.noConfusion h1
    rcases List.mem_cons.mp hmem with h1 | hmem
    · exact Event.noConfusion h1
    rcases List.mem_append.mp hmem with h1 | h1
    · exact implFrom_no_policy_some env sock.peerChain 0 h i h1
    · revert h1
      cases (_verify_peercerts_impl env sock.peerChain none).1 <;> simp
  · rw [wrap_bio_trace]
    intro hmem
    rcases List.mem_cons.mp hmem with h1 | hmem
    · exact Event.noConfusion h1
    rcases List.mem_cons.mp hmem with h1 | hmem
    · exact Event.noConfusion h1
    rcases List.mem_append.mp hmem with h1 | h1
    · exact implFrom_no_policy_some env inc.peerChain 0 h i h1
    · revert h1
      cases (_verify_peercerts_impl env inc.peerChain none).1 <;> simp
  · rw [wrap_socket_trace]
    exact List.mem_cons_of_mem _ (List.mem_cons_of_mem _
      (List.mem_append.mpr (Or.inl (implFrom_policy_none_mem env sock.peerChain 0))))
  · rw [wrap_bio_trace]
    exact List.mem_cons_of_mem _ (List.mem_cons_of_mem _
      (List.mem_append.mpr (Or.inl (implFrom_policy_none_mem env inc.peerChain 0))))

/-- Claim C2 (defect demonstration): on an untrusted verdict every acquired
handle — policy (id 0), certificate array (1), per-certificate data (2) and
certificate (3), trust object (4), error-description string (6) — is created
once and released exactly once, but the `CFError` object filled in by
`SecTrustEvaluateWithError` (id 5) is created and never released — the outer
`finally` only releases the policy and the trust object, so the native error
object leaks. -/
theorem C2_cf_error_leaked :
    (_verify_peercerts_impl envUntrusted [[1]] none).2 =
      [Event.create (HKind.policy none) 0, Event.create HKind.certArray 1,
       Event.create HKind.cfData 2, Event.create HKind.cert 3,
       Event.release 2, Event.release 3, Event.create HKind.trust 4,
       Event.release 1, Event.evalCall [[1]] none,
       Event.create HKind.cfError 5, Event.create HKind.errorDesc 6,
       Event.release 6, Event.release 0, Event.release 4] ∧
    createCount (_verify_peercerts_impl envUntrusted [[1]] none).2 5 = 1 ∧
    releaseCount (_verify_peercerts_impl envUntrusted [[1]] none).2 5 = 0 ∧
    (List.range 5 ++ [6]).all (fun i =>
      createCount (_verify_peercerts_impl envUntrusted [[1]] none).2 i == 1 &&
      releaseCount (_verify_peercerts_impl envUntrusted [[1]] none).2 i == 1) = true ∧
    (_verify_peercerts_impl envUntrusted [[1]] none).1 =
      Except.error (VerifyErr.certVerificationError (-26) "certificate is not trusted") :=
  ⟨rfl, by decide, by decide, by decide, rfl⟩

/-- Counterexample to claim C6: on an untrusted verdict inside `wrap_socket`
the verification error propagates, but the trace contains no session
teardown step — the wrapped session is not torn down before the error is
propagated. -/
theorem C6_counterexample :
    (Truststore.wrap_socket envUntrusted ⟨[[1]]⟩ (some "example.org")).1 =
      Except.error (VerifyErr.certVerificationError (-26) "certificate is not trusted") ∧
    Event.sessionTeardown ∉
      (Truststore.wrap_socket envUntrusted ⟨[[1]]⟩ (some "example.org")).2 :=
  ⟨rfl, by decide⟩

/-- Claim C6 as amended: when post-handshake verification fails inside
`wrap_socket` or `wrap_bio`, the error propagates and the session is never
returned to the caller, but the code performs no explicit teardown of the
session or the underlying transport (no teardown step exists on any path). -/
theorem C6_amended (env : MacEnv) (sock : SocketModel) (inc outg : MemoryBio)
    (hn : Option String) (e : VerifyErr) :
    Event.sessionTeardown ∉ (Truststore.wrap_socket env sock hn).2 ∧
    Event.sessionTeardown ∉ (Truststore.wrap_bio env inc outg hn).2 ∧
    ((Truststore.wrap_socket env sock hn).1 = Except.error e →
      Event.sessionReturn ∉ (Truststore.wrap_socket env sock hn).2) ∧
    ((Truststore.wrap_bio env inc outg hn).1 = Except.error e →
      Event.sessionReturn ∉ (Truststore.wrap_bio env inc outg hn).2) := by
  refine ⟨?_, ?_, ?_, ?_⟩
  · rw [wrap_socket_trace]
    intro hmem
    rcases List.mem_cons.mp hmem with h1 | hmem
    · exact Event.noConfusion h1
    rcases List.mem_cons.mp hmem with h1 | hmem
    · exact Event.noConfusion h1
    rcases List.mem_append.mp hmem with h1 | h1
    · exact impl_trace_no_sessionTeardown env sock.peerChain none h1
    · revert h1
      cases (_verify_peercerts_impl env sock.peerChain none).1 <;> simp
  · rw [wrap_bio_trace]
    intro hmem
    rcases List.mem_cons.mp hmem with h1 | hmem
    · exact Event.noConfusion h1
    rcases List.mem_cons.mp hmem with h1 | hmem
    · exact Event.noConfusion h1
    rcases List.mem_append.mp hmem with h1 | h1
    · exact impl_trace_no_sessionTeardown env inc.peerChain none h1
    · revert h1
      cases (_verify_peercerts_impl env inc.peerChain none).1 <;> simp
  · intro herr
    rw [wrap_socket_trace]
    have hres : ∃ e2, (_verify_peercerts_impl env sock.peerChain none).1 =
        Except.error e2 := by
      rw [wrap_socket_result] at herr
      revert herr
      cases (_verify_peercerts_impl env sock.peerChain none).1 <;> simp
    rcases hres with ⟨e2, hres⟩
    rw [hres]
    intro hmem
    rcases List.mem_cons.mp hmem with h1 | hmem
    · exact Event.noConfusion h1
    rcases List.mem_cons.mp hmem with h1 | hmem
    · exact Event.noConfusion h1
    rcases List.mem_append.mp hmem with h1 | h1
    · exact impl_trace_no_sessionReturn env sock.peerChain none h1
    · simp at h1
  · intro herr
    rw [wrap_bio_trace]
    have hres : ∃ e2, (_verify_peercerts_impl env inc.peerChain none).1 =
        Except.error e2 := by
      rw [wrap_bio_result] at herr
      revert herr
      cases (_verify_peercerts_impl env inc.peerChain none).1 <;> simp
    rcases hres with ⟨e2, hres⟩
    rw [hres]
    intro hmem
    rcases List.mem_cons.mp hmem with h1 | hmem
    · exact Event.noConfusion h1
    rcases List.mem_cons.mp hmem with h1 | hmem
    · exact Event.noConfusion h1
    rcases List.mem_append.mp hmem with h1 | h1
    · exact impl_trace_no_sessionReturn env inc.peerChain none h1
    · simp at h1

/-- Witness for C6 as amended, applied at a concrete untrusted run. -/
theorem C6_amended_witness :
    Event.sessionReturn ∉
      (Truststore.wrap_socket envUntrusted ⟨[[1]]⟩ (some "example.org")).2 :=
  (C6_amended envUntrusted ⟨[[1]]⟩ ⟨[[1]]⟩ ⟨[]⟩ (some "example.org")
      (VerifyErr.certVerificationError (-26) "certificate is not trusted")).2.2.1 rfl
